import Mathlib

set_option maxRecDepth 8000

/-!
Verification of the SRP proof generator in `src/tg_bot/botApi.js`
(`getPasswordParams` and `createPasswordCheckPayload`).

The JavaScript code is shallowly embedded: byte sequences are `List Nat`
(each entry a byte value), big integers from the `big-integer` library are
`Nat` / `Int` (the library's `subtract` may go negative and its `mod`/`modPow`
keep the sign of the dividend, modelled with `Int.tmod`), `Buffer` contents
are `List Nat`, hex strings are `List Char`, and Node's
`crypto.createHash('sha256')` is the `sha256` function below (FIPS 180-4).
-/

/-! ## SHA-256 (model of Node `crypto.createHash('sha256')`) -/

/-- Truncation to a 32-bit word. -/
def w32 (n : Nat) : Nat := n % 4294967296

/-- 32-bit right rotation. -/
def rotr (n x : Nat) : Nat := w32 ((x >>> n) ||| (x <<< (32 - n)))

/-- 32-bit bitwise complement (inputs are kept below `2 ^ 32`). -/
def bnot32 (x : Nat) : Nat := 4294967295 - (x % 4294967296)

/-- Eight 32-bit hash registers. -/
structure Hash8 where
  h0 : Nat
  h1 : Nat
  h2 : Nat
  h3 : Nat
  h4 : Nat
  h5 : Nat
  h6 : Nat
  h7 : Nat

/-- SHA-256 initial hash value. -/
def initH : Hash8 :=
  ⟨1779033703, 3144134277, 1013904242, 2773480762,
   1359893119, 2600822924, 528734635, 1541459225⟩

/-- SHA-256 round constants. -/
def sha256K : List Nat := [
  1116352408, 1899447441, 3049323471, 3921009573, 961987163, 1508970993, 2453635748, 2870763221,
  3624381080, 310598401, 607225278, 1426881987, 1925078388, 2162078206, 2614888103, 3248222580,
  3835390401, 4022224774, 264347078, 604807628, 770255983, 1249150122, 1555081692, 1996064986,
  2554220882, 2821834349, 2952996808, 3210313671, 3336571891, 3584528711, 113926993, 338241895,
  666307205, 773529912, 1294757372, 1396182291, 1695183700, 1986661051, 2177026350, 2456956037,
  2730485921, 2820302411, 3259730800, 3345764771, 3516065817, 3600352804, 4094571909, 275423344,
  430227734, 506948616, 659060556, 883997877, 958139571, 1322822218, 1537002063, 1747873779,
  1955562222, 2024104815, 2227730452, 2361852424, 2428436474, 2756734187, 3204031479, 3329325298]

/-- Big-endian 8-byte rendering of the 64-bit message length field. -/
def word8 (n : Nat) : List Nat :=
  [n / 72057594037927936 % 256, n / 281474976710656 % 256,
   n / 1099511627776 % 256, n / 4294967296 % 256,
   n / 16777216 % 256, n / 65536 % 256, n / 256 % 256, n % 256]

/-- Big-endian 4-byte rendering of a 32-bit word. -/
def word4 (n : Nat) : List Nat :=
  [n / 16777216 % 256, n / 65536 % 256, n / 256 % 256, n % 256]

/-- SHA-256 padding: append `0x80`, zero bytes, and the 64-bit bit length. -/
def padMessage (msg : List Nat) : List Nat :=
  msg ++ 128 :: (List.replicate ((64 + 55 - msg.length % 64) % 64) 0 ++ word8 (8 * msg.length))

/-- Group bytes into big-endian 32-bit words. -/
def wordsOfBytes : List Nat → List Nat
  | b0 :: b1 :: b2 :: b3 :: rest =>
      (b0 * 16777216 + b1 * 65536 + b2 * 256 + b3) :: wordsOfBytes rest
  | _ => []

/-- Message-schedule extension; `acc` holds the words produced so far, newest first. -/
def extendLoop : Nat → List Nat → List Nat
  | 0, acc => acc
  | t + 1, acc =>
      let w2 := acc.getD 1 0
      let w7 := acc.getD 6 0
      let w15 := acc.getD 14 0
      let w16 := acc.getD 15 0
      let s0 := (rotr 7 w15) ^^^ (rotr 18 w15) ^^^ (w15 >>> 3)
      let s1 := (rotr 17 w2) ^^^ (rotr 19 w2) ^^^ (w2 >>> 10)
      extendLoop t (w32 (w16 + s0 + w7 + s1) :: acc)

/-- The 64-entry message schedule of one 512-bit chunk. -/
def messageSchedule (ws : List Nat) : List Nat := (extendLoop 48 ws.reverse).reverse

/-- One SHA-256 compression round. -/
def compressStep (st : Hash8) (kw : Nat × Nat) : Hash8 :=
  let S1 := (rotr 6 st.h4) ^^^ (rotr 11 st.h4) ^^^ (rotr 25 st.h4)
  let ch := (st.h4 &&& st.h5) ^^^ (bnot32 st.h4 &&& st.h6)
  let temp1 := w32 (st.h7 + S1 + ch + kw.1 + kw.2)
  let S0 := (rotr 2 st.h0) ^^^ (rotr 13 st.h0) ^^^ (rotr 22 st.h0)
  let maj := (st.h0 &&& st.h1) ^^^ (st.h0 &&& st.h2) ^^^ (st.h1 &&& st.h2)
  let temp2 := w32 (S0 + maj)
  ⟨w32 (temp1 + temp2), st.h0, st.h1, st.h2, w32 (st.h3 + temp1), st.h4, st.h5, st.h6⟩

/-- Compress one 64-byte chunk into the running hash state. -/
def compressChunk (st : Hash8) (chunk : List Nat) : Hash8 :=
  let ws := messageSchedule (wordsOfBytes chunk)
  let t := (List.zip sha256K ws).foldl compressStep st
  ⟨w32 (st.h0 + t.h0), w32 (st.h1 + t.h1), w32 (st.h2 + t.h2), w32 (st.h3 + t.h3),
   w32 (st.h4 + t.h4), w32 (st.h5 + t.h5), w32 (st.h6 + t.h6), w32 (st.h7 + t.h7)⟩

/-- Split a byte list into 64-byte chunks. -/
def chunks64 (l : List Nat) : List (List Nat) :=
  if h : l = [] then [] else l.take 64 :: chunks64 (l.drop 64)
termination_by l.length
decreasing_by
  simp only [List.length_drop]
  have hl : 0 < l.length := List.length_pos.mpr h
  omega

/-- Big-endian serialization of the final hash state (32 digest bytes). -/
def digestBytes (h : Hash8) : List Nat :=
  word4 h.h0 ++ word4 h.h1 ++ word4 h.h2 ++ word4 h.h3 ++
  word4 h.h4 ++ word4 h.h5 ++ word4 h.h6 ++ word4 h.h7

/-- SHA-256 of a byte sequence. -/
def sha256 (msg : List Nat) : List Nat :=
  digestBytes ((chunks64 (padMessage msg)).foldl compressChunk initH)

/-! ## Hex rendering / parsing and byte-array encodings -/

/-- The sixteen lowercase hex digit characters. -/
def hexChars : List Char := "0123456789abcdef".toList

/-- A character is a lowercase hexadecimal digit. -/
def isLowerHex (c : Char) : Prop := c ∈ hexChars

instance (c : Char) : Decidable (isLowerHex c) := by
  unfold isLowerHex; infer_instance

/-- The lowercase hex digit character for a value below 16. -/
def hexDigit (d : Nat) : Char := hexChars.getD d '0'

/-- Numeric value of a lowercase hex digit character (as parsed by `bigInt(s, 16)`). -/
def hexVal (c : Char) : Nat :=
  if c = '0' then 0 else if c = '1' then 1 else if c = '2' then 2 else if c = '3' then 3
  else if c = '4' then 4 else if c = '5' then 5 else if c = '6' then 6 else if c = '7' then 7
  else if c = '8' then 8 else if c = '9' then 9 else if c = 'a' then 10 else if c = 'b' then 11
  else if c = 'c' then 12 else if c = 'd' then 13 else if c = 'e' then 14 else if c = 'f' then 15
  else 0

/-- Model of Node `Buffer.toString('hex')`: two lowercase hex digits per byte. -/
def bytesToHexChars : List Nat → List Char
  | [] => []
  | b :: bs => hexDigit (b / 16) :: hexDigit (b % 16) :: bytesToHexChars bs

/-- Model of `bigInt(s, 16)` on a hex string. -/
def natFromHexChars (cs : List Char) : Nat :=
  cs.foldl (fun acc c => acc * 16 + hexVal c) 0

/-- A byte sequence read as a big-endian unsigned integer. -/
def beBytesToNat (bs : List Nat) : Nat :=
  bs.foldl (fun acc b => acc * 256 + b) 0

/-- Model of `big-integer`'s `toString(16)` for a nonnegative value:
minimal-length lowercase big-endian hex, `"0"` for zero. -/
def natToHexMin (n : Nat) : List Char :=
  if n = 0 then ['0'] else (Nat.digits 16 n).reverse.map hexDigit

/-- Model of `big-integer`'s `toArray(256).value`: the minimal-length
big-endian base-256 digit array of the magnitude, `[0]` for zero. -/
def toArray256 (n : Nat) : List Nat :=
  if n = 0 then [0] else (Nat.digits 256 n).reverse

/-- `toArray(256).value` of a possibly negative big integer: the digit array
of the magnitude (the sign is only recorded in the separate `isNegative` flag). -/
def toArray256I (i : Int) : List Nat := toArray256 i.natAbs

/-! ## big-integer modular exponentiation (`modPow`) -/

/-- The square-and-multiply loop of `big-integer`'s `modPow`: partial results
are reduced with `mod`, which keeps the sign of the dividend (`Int.tmod`),
and a zero base short-circuits to 0. -/
def modPowLoop (m : Int) (r b : Int) (e : Nat) : Int :=
  if e = 0 then r
  else if b = 0 then 0
  else modPowLoop m (if e % 2 = 1 then (r * b).tmod m else r) ((b * b).tmod m) (e / 2)
termination_by e
decreasing_by
  rename_i he _
  exact Nat.div_lt_self (Nat.pos_of_ne_zero he) one_lt_two

/-- `big-integer`'s `modPow` for a nonnegative exponent: the base is first
reduced with sign-preserving `mod`, then fed to the square-and-multiply loop. -/
def modPowBI (b : Int) (e : Nat) (m : Int) : Int :=
  modPowLoop m 1 (b.tmod m) e

/-! ## Constants and SRP pipeline of `createPasswordCheckPayload` -/

/-- The generator constant `g = bigInt(2)`. -/
def gval : Int := 2

/-- The modulus constant `N` of `createPasswordCheckPayload`, exactly the hex
literal from the source (the two concatenated string halves). -/
def Nval : Nat := 0xAC6BDB41324A9A9BF166DE5E1389582FAF72B665198FFB3E2C6D9A8C12AD3D9A86917F1FE55E7182967C2E4DFCE10D86AA6D5FDEDD532F3A942D5EEC0A3C9CEFAF9643DB81E2AFCBDC7D465F20AB4FA91852C1696F769A9A2C

/-- `N` as a big integer. -/
def NvalI : Int := (Nval : Int)

/-- Line 123/125: `x = bigInt(sha256(salt ‖ passwordBytes).toString('hex'), 16)`. -/
def stage_x (salt pw : List Nat) : Nat :=
  natFromHexChars (bytesToHexChars (sha256 (salt ++ pw)))

/-- Line 127: `A = g.modPow(a, N)`. -/
def stage_A (a : Nat) : Int := modPowBI gval a NvalI

/-- Lines 130-131: `u = bigInt(sha256(A.toArray(256).value ‖ B.toArray(256).value).toString('hex'), 16)`. -/
def stage_u (A : Int) (B : Nat) : Nat :=
  natFromHexChars (bytesToHexChars (sha256 (toArray256I A ++ toArray256 B)))

/-- Line 133: `S = B.subtract(g.modPow(x, N)).modPow(a.add(u.multiply(x)), N)`. -/
def stage_S (B : Nat) (x a u : Nat) : Int :=
  modPowBI ((B : Int) - modPowBI gval x NvalI) (a + u * x) NvalI

/-- Line 134: `M1Hash = sha256(A.toArray(256).value ‖ B.toArray(256).value ‖ S.toArray(256).value)`. -/
def stage_M1 (A : Int) (B : Nat) (S : Int) : List Nat :=
  sha256 (toArray256I A ++ toArray256 B ++ toArray256I S)

/-- The intermediate values of one proof computation. -/
structure SrpIntermediates where
  x : Nat
  A : Int
  u : Nat
  S : Int
  M1 : List Nat

/-- The A → u → x → S → M1 sequence of `createPasswordCheckPayload`, with all
intermediates exposed.  The ephemeral `a` (the integer read from the 256
random bytes of line 126) is an explicit parameter. -/
def runStages (a : Nat) (pw salt : List Nat) (B : Nat) : SrpIntermediates :=
  let x := stage_x salt pw
  let A := stage_A a
  let u := stage_u A B
  let S := stage_S B x a u
  { x := x, A := A, u := u, S := S, M1 := stage_M1 A B S }

/-- The returned payload object (lines 136-141); `tag` embeds the JS field `"_"`. -/
structure SrpPayload where
  tag : String
  srp_id : String
  A : List Char
  M1 : List Char
deriving DecidableEq

/-- Lines 111-142, after parsing: `salt` is the base64-decoded `current_salt`,
`pw` the UTF-8 bytes of the password, `B` the value of the hex string `srp_B`,
and `a` the integer read from `crypto.randomBytes(256)`.  The body follows the
source line by line; no validation of `B` is performed anywhere. -/
def createPasswordCheckPayload (a : Nat) (pw salt : List Nat) (srp_id : String)
    (B : Nat) : SrpPayload :=
  let passwordHash := sha256 (salt ++ pw)
  let x := natFromHexChars (bytesToHexChars passwordHash)
  let A := modPowBI gval a NvalI
  let uHash := sha256 (toArray256I A ++ toArray256 B)
  let u := natFromHexChars (bytesToHexChars uHash)
  let S := modPowBI ((B : Int) - modPowBI gval x NvalI) (a + u * x) NvalI
  let M1Hash := sha256 (toArray256I A ++ toArray256 B ++ toArray256I S)
  { tag := "inputCheckPasswordSRP", srp_id := srp_id,
    A := natToHexMin A.toNat, M1 := bytesToHexChars M1Hash }

/-! ## `getPasswordParams` (lines 87-105) -/

/-- The fields of the `account.getPassword` response that `getPasswordParams`
inspects; a missing field is `none`. -/
structure PasswordDetails where
  srp_id : Option String
  srp_B : Option String
  current_salt : Option String
deriving DecidableEq

/-- JavaScript truthiness of an optional string field: `undefined`/`null` and
the empty string are falsy. -/
def jsTruthy : Option String → Bool
  | none => false
  | some s => !s.isEmpty

/-- Lines 87-105: fail when there is no response, fail when `srp_id`, `srp_B`
or `current_salt` is missing, otherwise return the response unchanged. -/
def getPasswordParams (resp : Option PasswordDetails) : Except String PasswordDetails :=
  match resp with
  | none => Except.error "No response from account.getPassword API. Check bot permissions or API availability."
  | some d =>
      if !jsTruthy d.srp_id || !jsTruthy d.srp_B || !jsTruthy d.current_salt then
        Except.error "Missing required fields in password details response"
      else
        Except.ok d

/-! ## Helper lemmas: modular exponentiation -/

/-- Reducing the base of a power modulo `n` first does not change the residue. -/
theorem int_pow_emod (a : Int) (k : Nat) (n : Int) : (a % n) ^ k % n = a ^ k % n := by
  induction k with
  | zero => rfl
  | succ k ih =>
      rw [pow_succ, pow_succ, Int.mul_emod, ih, Int.emod_emod_of_dvd _ dvd_rfl,
        ← Int.mul_emod]

/-- The square-and-multiply loop computes `r * b ^ e mod m` on canonical residues. -/
theorem modPowLoop_spec (m : Int) (hm : 0 < m) :
    ∀ (e : Nat) (r b : Int), 0 ≤ r → r < m → 0 ≤ b → b < m →
      modPowLoop m r b e = r * b ^ e % m := by
  intro e
  induction e using Nat.strong_induction_on with
  | _ e ih =>
    intro r b hr hrm hb hbm
    unfold modPowLoop
    by_cases he : e = 0
    · subst he
      simp [Int.emod_eq_of_lt hr hrm]
    · rw [if_neg he]
      by_cases hbz : b = 0
      · subst hbz
        rw [if_pos rfl, zero_pow he, mul_zero, Int.zero_emod]
      · rw [if_neg hbz]
        have hmle : (0:Int) ≤ m := le_of_lt hm
        have htb : (b * b).tmod m = b * b % m :=
          Int.tmod_eq_emod (mul_nonneg hb hb) hmle
        have hb2nn : (0:Int) ≤ b * b % m := Int.emod_nonneg _ (ne_of_gt hm)
        have hb2lt : b * b % m < m := Int.emod_lt_of_pos _ hm
        have hdiv : e / 2 < e := Nat.div_lt_self (Nat.pos_of_ne_zero he) one_lt_two
        by_cases hpar : e % 2 = 1
        · rw [if_pos hpar]
          have htr : (r * b).tmod m = r * b % m :=
            Int.tmod_eq_emod (mul_nonneg hr hb) hmle
          rw [htr, htb,
            ih (e / 2) hdiv _ _ (Int.emod_nonneg _ (ne_of_gt hm))
              (Int.emod_lt_of_pos _ hm) hb2nn hb2lt,
            Int.mul_emod, int_pow_emod, Int.emod_emod_of_dvd _ dvd_rfl, ← Int.mul_emod]
          congr 1
          obtain ⟨k, hk⟩ : ∃ k, e / 2 = k := ⟨_, rfl⟩
          rw [hk]
          rw [show e = 2 * k + 1 by omega]
          ring
        · rw [if_neg hpar]
          rw [htb, ih (e / 2) hdiv r _ hr hrm hb2nn hb2lt,
            Int.mul_emod, int_pow_emod, ← Int.mul_emod]
          congr 1
          obtain ⟨k, hk⟩ : ∃ k, e / 2 = k := ⟨_, rfl⟩
          rw [hk]
          rw [show e = 2 * k by omega]
          ring

/-- `big-integer` `modPow` on a nonnegative base agrees with mathematical
modular exponentiation. -/
theorem modPowBI_spec (b : Int) (e : Nat) (m : Int) (hb : 0 ≤ b) (hm : 1 < m) :
    modPowBI b e m = b ^ e % m := by
  have hm0 : (0:Int) < m := by omega
  unfold modPowBI
  rw [Int.tmod_eq_emod hb (by omega),
    modPowLoop_spec m hm0 e 1 (b % m) (by omega) (by omega)
      (Int.emod_nonneg _ (by omega)) (Int.emod_lt_of_pos _ hm0),
    one_mul, int_pow_emod]

/-! ## Helper lemmas: the modulus constant -/

/-- `N` does not divide any power of two (it is divisible by 4 but not 8,
and is far larger than 4). -/
theorem Nval_not_dvd_pow_two (k : Nat) : ¬ Nval ∣ 2 ^ k := by
  intro hdvd
  obtain ⟨j, _, hN⟩ := (Nat.dvd_prime_pow Nat.prime_two).mp hdvd
  have hlt : Nval < 2 ^ 712 := by decide
  have hge : 2 ^ 711 ≤ Nval := by decide
  rw [hN] at hlt hge
  have hj1 : j < 712 := (Nat.pow_lt_pow_iff_right (by norm_num)).mp hlt
  have hj2 : 711 ≤ j := (Nat.pow_le_pow_iff_right (by norm_num)).mp hge
  rw [show j = 711 by omega] at hN
  exact absurd hN (by decide)

/-- The public ephemeral of the code: `A = 2 ^ a mod N`. -/
theorem stage_A_eq (a : Nat) : stage_A a = gval ^ a % NvalI :=
  modPowBI_spec gval a NvalI (by decide) (by decide)

/-- `A` is never zero and always a canonical residue. -/
theorem stage_A_bounds (a : Nat) : 1 ≤ stage_A a ∧ stage_A a ≤ NvalI - 1 := by
  rw [stage_A_eq]
  have h0 : (0:Int) ≤ gval ^ a % NvalI := Int.emod_nonneg _ (by decide)
  have h1 : gval ^ a % NvalI < NvalI := Int.emod_lt_of_pos _ (by decide)
  have hne : gval ^ a % NvalI ≠ 0 := by
    intro h
    have hdvd : NvalI ∣ gval ^ a := Int.dvd_of_emod_eq_zero h
    rw [show gval = ((2 : Nat) : Int) from rfl,
      show NvalI = (Nval : Int) from rfl, ← Nat.cast_pow] at hdvd
    exact Nval_not_dvd_pow_two a (Int.natCast_dvd_natCast.mp hdvd)
  have h2 : (1:Int) < NvalI := by decide
  set t := gval ^ a % NvalI with ht
  constructor <;> omega

/-! ## Helper lemmas: hex rendering and parsing -/

/-- `hexVal` inverts `hexDigit` on digit values. -/
theorem hexVal_hexDigit : ∀ d : Nat, d < 16 → hexVal (hexDigit d) = d := by decide

/-- `hexDigit` produces lowercase hex characters. -/
theorem hexDigit_lower : ∀ d : Nat, d < 16 → isLowerHex (hexDigit d) := by decide

/-- `hexDigit` of a nonzero digit is not the character `'0'`. -/
theorem hexDigit_ne_zero : ∀ d : Nat, d < 16 → d ≠ 0 → hexDigit d ≠ '0' := by decide

/-- A hex dump has two characters per byte. -/
theorem bytesToHexChars_length (bs : List Nat) :
    (bytesToHexChars bs).length = 2 * bs.length := by
  induction bs with
  | nil => rfl
  | cons b bs ih =>
      simp only [bytesToHexChars, List.length_cons, ih]
      omega

/-- A hex dump of bytes consists of lowercase hex characters. -/
theorem bytesToHexChars_lower (bs : List Nat) (h : ∀ b ∈ bs, b < 256) :
    ∀ c ∈ bytesToHexChars bs, isLowerHex c := by
  induction bs with
  | nil => intro c hc; cases hc
  | cons b bs ih =>
      intro c hc
      have hb : b < 256 := h b (List.mem_cons_self b bs)
      simp only [bytesToHexChars, List.mem_cons] at hc
      rcases hc with rfl | rfl | hc
      · exact hexDigit_lower _ (by omega)
      · exact hexDigit_lower _ (Nat.mod_lt _ (by norm_num))
      · exact ih (fun x hx => h x (List.mem_cons_of_mem _ hx)) c hc

/-- Parsing the hex dump of a byte sequence yields its big-endian value:
this is how lines 123-125 and 130-131 turn a digest into a big integer. -/
theorem natFromHexChars_bytesToHexChars (bs : List Nat) (h : ∀ b ∈ bs, b < 256) :
    natFromHexChars (bytesToHexChars bs) = beBytesToNat bs := by
  have aux : ∀ (l : List Nat) (acc : Nat), (∀ b ∈ l, b < 256) →
      List.foldl (fun acc c => acc * 16 + hexVal c) acc (bytesToHexChars l) =
      List.foldl (fun acc b => acc * 256 + b) acc l := by
    intro l
    induction l with
    | nil => intro acc _; rfl
    | cons b t ih =>
        intro acc hh
        have hb : b < 256 := hh b (List.mem_cons_self b t)
        simp only [bytesToHexChars, List.foldl_cons]
        rw [hexVal_hexDigit _ (by omega), hexVal_hexDigit _ (Nat.mod_lt _ (by norm_num)),
          ih _ (fun x hx => hh x (List.mem_cons_of_mem _ hx))]
        congr 1
        omega
  exact aux bs 0 h

/-- Every character of a minimal hex rendering is a lowercase hex digit. -/
theorem natToHexMin_lower (n : Nat) : ∀ c ∈ natToHexMin n, isLowerHex c := by
  intro c hc
  unfold natToHexMin at hc
  by_cases hn : n = 0
  · rw [if_pos hn] at hc
    simp only [List.mem_singleton] at hc
    subst hc
    decide
  · rw [if_neg hn] at hc
    obtain ⟨d, hd, rfl⟩ := List.mem_map.mp hc
    exact hexDigit_lower d (Nat.digits_lt_base (by norm_num) (List.mem_reverse.mp hd))

/-- The minimal hex rendering of a nonzero value has no leading `'0'`. -/
theorem natToHexMin_head (n : Nat) (hn : n ≠ 0) : (natToHexMin n).head? ≠ some '0' := by
  unfold natToHexMin
  rw [if_neg hn]
  have hne : Nat.digits 16 n ≠ [] := Nat.digits_ne_nil_iff_ne_zero.mpr hn
  intro hcontra
  rw [List.head?_map, List.head?_reverse, List.getLast?_eq_getLast _ hne] at hcontra
  have hd16 : (Nat.digits 16 n).getLast hne < 16 :=
    Nat.digits_lt_base (by norm_num) (List.getLast_mem hne)
  have hd0 : (Nat.digits 16 n).getLast hne ≠ 0 := Nat.getLast_digit_ne_zero 16 hn
  exact hexDigit_ne_zero _ hd16 hd0 (Option.some.inj hcontra)

/-- Parsing a minimal hex rendering gives back the value: the rendering keeps
exactly the numerically significant digits. -/
theorem natToHexMin_roundtrip (n : Nat) : natFromHexChars (natToHexMin n) = n := by
  by_cases hn : n = 0
  · subst hn; rfl
  · have aux : ∀ (l : List Nat), (∀ d ∈ l, d < 16) →
        natFromHexChars (l.reverse.map hexDigit) = Nat.ofDigits 16 l := by
      intro l
      induction l with
      | nil => intro _; rfl
      | cons d t ih =>
          intro hh
          rw [List.reverse_cons, List.map_append]
          unfold natFromHexChars
          rw [List.foldl_append]
          simp only [List.map_cons, List.map_nil]
          have hstep : List.foldl (fun acc c => acc * 16 + hexVal c)
              (List.foldl (fun acc c => acc * 16 + hexVal c) 0 (t.reverse.map hexDigit))
              ([hexDigit d]) =
              (natFromHexChars (t.reverse.map hexDigit)) * 16 + hexVal (hexDigit d) := rfl
          rw [hstep, ih (fun x hx => hh x (List.mem_cons_of_mem _ hx)),
            hexVal_hexDigit d (hh d (List.mem_cons_self d t)), Nat.ofDigits_cons]
          ring
    unfold natToHexMin
    rw [if_neg hn, aux _ (fun d hd => Nat.digits_lt_base (by norm_num) hd),
      Nat.ofDigits_digits 16 n]

/-! ## Helper lemmas: digest shape -/

/-- Each rendered word byte is below 256. -/
theorem word4_mem (n : Nat) : ∀ b ∈ word4 n, b < 256 := by
  intro b hb
  simp only [word4, List.mem_cons, List.not_mem_nil, or_false] at hb
  rcases hb with rfl | rfl | rfl | rfl <;> omega

/-- A serialized hash state is exactly 32 bytes. -/
theorem digestBytes_length (h : Hash8) : (digestBytes h).length = 32 := by
  simp [digestBytes, word4]

/-- All bytes of a serialized hash state are below 256. -/
theorem digestBytes_mem (h : Hash8) : ∀ b ∈ digestBytes h, b < 256 := by
  intro b hb
  simp only [digestBytes, List.mem_append] at hb
  rcases hb with ((((((h1 | h1) | h1) | h1) | h1) | h1) | h1) | h1 <;> exact word4_mem _ _ h1

/-- A SHA-256 digest is exactly 32 bytes. -/
theorem sha256_length (msg : List Nat) : (sha256 msg).length = 32 :=
  digestBytes_length _

/-- All bytes of a SHA-256 digest are below 256. -/
theorem sha256_mem (msg : List Nat) : ∀ b ∈ sha256 msg, b < 256 :=
  digestBytes_mem _

/-! ## Claim theorems -/

/-- C1: the claim says every value hashed for `u` and `M1` is encoded as a
fixed-width 256-byte left-padded sequence (W = byte length of N).  The code
instead calls `toArray(256)`, whose argument is the radix, producing the
minimal-length digit array: in the run with ephemeral `a = 1` the public value
`A = 2` is fed to the hash as a single byte, and the byte length of the
code's `N` is 89, not 256. -/
theorem claim_C1_minimal_width_encoding :
    (toArray256I (stage_A 1)).length = 1 ∧ (toArray256 Nval).length = 89 ∧
    (1 : Nat) ≠ 256 ∧ (89 : Nat) ≠ 256 := by
  refine ⟨?_, ?_, by norm_num, by norm_num⟩
  · have hA : stage_A 1 = 2 := by
      rw [stage_A_eq, pow_one]
      exact Int.emod_eq_of_lt (by decide) (by decide)
    rw [hA]
    show (toArray256 ((2:Int)).natAbs).length = 1
    rw [show ((2:Int)).natAbs = 2 from rfl]
    unfold toArray256
    rw [if_neg (by norm_num), Nat.digits_of_lt 256 2 (by norm_num) (by norm_num)]
    rfl
  · have hlog : Nat.log 256 Nval = 88 :=
      Nat.log_eq_of_pow_le_of_lt_pow (by decide) (by decide)
    unfold toArray256
    rw [if_neg (by decide : ¬ (Nval = 0)), List.length_reverse,
      Nat.digits_len 256 Nval (by norm_num) (by decide), hlog]

/-- C2: the claim says `N` is a specific 2048-bit safe prime (256 bytes).
In the code `g = 2` and `N` is indeed a fixed constant, but the constant is a
712-bit even number, hence composite and not a safe prime, and its byte
length is 89, not 256. -/
theorem claim_C2_modulus_not_2048_bit_safe_prime :
    gval = 2 ∧ Nval % 2 = 0 ∧ 2 ^ 711 ≤ Nval ∧ Nval < 2 ^ 712 ∧ ¬ Nat.Prime Nval := by
  refine ⟨rfl, by decide, by decide, by decide, ?_⟩
  intro hp
  have h2 : (2:ℕ) ∣ Nval := Nat.dvd_of_mod_eq_zero (by decide)
  rcases Nat.Prime.eq_one_or_self_of_dvd hp 2 h2 with h | h
  · exact absurd h (by norm_num)
  · exact absurd h (by decide)

/-- C3: the claim says the base of the shared-secret exponentiation is the
normalized difference `(B − g^x mod N) mod N`, so that 3 − 10 under a toy
modulus 17 yields 10.  The code's `subtract` is plain big-integer
subtraction, which yields −7, and `modPow` keeps the dividend's sign, so the
shared secret is computed on the negative base: with exponent 1 it stays −7
(both under the toy modulus 17 and under the code's `N`), not 10. -/
theorem claim_C3_subtraction_not_normalized :
    (3 : Int) - 10 = -7 ∧
    modPowBI ((3 : Int) - 10) 1 17 = -7 ∧
    modPowBI ((3 : Int) - 10) 1 NvalI = -7 ∧
    ((-7 : Int) ≠ 10) := by
  refine ⟨by norm_num, ?_, ?_, by norm_num⟩
  · show modPowLoop 17 1 (((3:Int) - 10).tmod 17) 1 = -7
    rw [show ((3:Int) - 10).tmod 17 = -7 from by decide]
    unfold modPowLoop
    norm_num
    rw [show ((-7:Int)).tmod 17 = -7 from by decide]
    unfold modPowLoop
    norm_num
  · show modPowLoop NvalI 1 (((3:Int) - 10).tmod NvalI) 1 = -7
    rw [show ((3:Int) - 10).tmod NvalI = -7 from by decide]
    unfold modPowLoop
    norm_num
    rw [show ((-7:Int)).tmod NvalI = -7 from by decide]
    unfold modPowLoop
    norm_num

/-- C4: the claim says `0 < B < N` is validated and an out-of-range `B` never
yields a payload.  The code contains no range check at all: the computation
returns a well-formed payload both for `B = 0` and for `B = N + 1`. -/
theorem claim_C4_no_challenge_validation (a : Nat) (pw salt : List Nat) (srp_id : String) :
    (createPasswordCheckPayload a pw salt srp_id 0).tag = "inputCheckPasswordSRP" ∧
    (createPasswordCheckPayload a pw salt srp_id (Nval + 1)).tag = "inputCheckPasswordSRP" :=
  ⟨rfl, rfl⟩

/-- C5: the session secret `x` equals the SHA-256 digest of `salt ‖ password`
read as a big-endian unsigned integer (the code goes through a hex dump and
`bigInt(·, 16)`, which is the same value); being a pure function of salt and
password, the derivation is deterministic. -/
theorem claim_C5_session_secret_is_be_digest (a B : Nat) (salt pw : List Nat) :
    (runStages a pw salt B).x = beBytesToNat (sha256 (salt ++ pw)) := by
  show stage_x salt pw = _
  unfold stage_x
  exact natFromHexChars_bytesToHexChars _ (sha256_mem _)

/-- C6: for every ephemeral exponent `a`, the public ephemeral is
`A = 2 ^ a mod N` and lies in `[1, N − 1]`; in particular it is never 0. -/
theorem claim_C6_public_ephemeral_in_range (a : Nat) (pw salt : List Nat) (B : Nat) :
    (runStages a pw salt B).A = (2 : Int) ^ a % NvalI ∧
    1 ≤ (runStages a pw salt B).A ∧ (runStages a pw salt B).A ≤ NvalI - 1 :=
  ⟨stage_A_eq a, (stage_A_bounds a).1, (stage_A_bounds a).2⟩

/-- C7: every payload carries the discriminator `"inputCheckPasswordSRP"`,
passes `srp_id` through unchanged, renders `A` as minimal lowercase hex (no
`0x` prefix, no leading zero, parsing back to the value of `A`), and renders
`M1` as exactly 64 lowercase hex characters. -/
theorem claim_C7_payload_shape (a : Nat) (pw salt : List Nat) (srp_id : String) (B : Nat) :
    (createPasswordCheckPayload a pw salt srp_id B).tag = "inputCheckPasswordSRP" ∧
    (createPasswordCheckPayload a pw salt srp_id B).srp_id = srp_id ∧
    (createPasswordCheckPayload a pw salt srp_id B).M1.length = 64 ∧
    (∀ c ∈ (createPasswordCheckPayload a pw salt srp_id B).M1, isLowerHex c) ∧
    (∀ c ∈ (createPasswordCheckPayload a pw salt srp_id B).A, isLowerHex c) ∧
    (createPasswordCheckPayload a pw salt srp_id B).A.head? ≠ some '0' ∧
    natFromHexChars (createPasswordCheckPayload a pw salt srp_id B).A = (stage_A a).toNat := by
  have hAne : (stage_A a).toNat ≠ 0 := by
    have h1 : 1 ≤ stage_A a := (stage_A_bounds a).1
    intro h0
    rw [Int.toNat_eq_zero] at h0
    omega
  have hlen : ∀ msg : List Nat, (bytesToHexChars (sha256 msg)).length = 64 := by
    intro msg
    rw [bytesToHexChars_length, sha256_length]
  refine ⟨rfl, rfl, hlen _, ?_, ?_, ?_, ?_⟩
  · exact fun c hc => bytesToHexChars_lower _ (sha256_mem _) c hc
  · exact fun c hc => natToHexMin_lower _ c hc
  · exact natToHexMin_head _ hAne
  · exact natToHexMin_roundtrip _

/-- C8: when the challenge-parameter response lacks `srp_id`, `srp_B` or
`current_salt`, `getPasswordParams` fails with the missing-fields error, and
any continuation building a proof from the parameters short-circuits to the
same error, so no proof is produced. -/
theorem claim_C8_missing_fields_rejected (d : PasswordDetails)
    (h : d.srp_id = none ∨ d.srp_B = none ∨ d.current_salt = none) :
    getPasswordParams (some d) =
      Except.error "Missing required fields in password details response" ∧
    ∀ k : PasswordDetails → Except String SrpPayload,
      (getPasswordParams (some d)).bind k =
        Except.error "Missing required fields in password details response" := by
  have herr : getPasswordParams (some d) =
      Except.error "Missing required fields in password details response" := by
    rcases h with h | h | h <;> simp [getPasswordParams, jsTruthy, h]
  exact ⟨herr, fun k => by rw [herr]; rfl⟩

/-- C8 witness: a concrete response with `srp_B` missing is rejected. -/
theorem claim_C8_witness :
    getPasswordParams (some ⟨some "84291", none, some "c2FsdA=="⟩) =
      Except.error "Missing required fields in password details response" :=
  (claim_C8_missing_fields_rejected _ (Or.inr (Or.inl rfl))).1

/-- C9: with the ephemeral `a` fixed (the random source replaced by an
explicit parameter), the payload is exactly the assembly of the staged
sequence A → u → x → S → M1: the computation is a pure function of
`(a, password, salt, srp_id, B)`, so two runs on the same inputs produce
bit-identical payloads. -/
theorem claim_C9_deterministic_pipeline (a : Nat) (pw salt : List Nat)
    (srp_id : String) (B : Nat) :
    createPasswordCheckPayload a pw salt srp_id B =
      { tag := "inputCheckPasswordSRP", srp_id := srp_id,
        A := natToHexMin (runStages a pw salt B).A.toNat,
        M1 := bytesToHexChars (runStages a pw salt B).M1 } := rfl

/-- C10: the scrambling parameter `u` depends only on `A` (hence on `a`) and
`B`: two invocations with the same ephemeral and the same challenge compute
the same `u` whatever the password and salt are. -/
theorem claim_C10_scrambling_independent_of_password (a B : Nat)
    (pw1 salt1 pw2 salt2 : List Nat) :
    (runStages a pw1 salt1 B).u = (runStages a pw2 salt2 B).u := rfl
